import Mathlib

/-
Shallow embedding of src/vs/editor/browser/viewParts/selectionsGpu/selectionsGpu.ts
(the corner-style classification of selection highlights, its gap detector, the
frame-stabilization cache lookup, and the selection-piece emitter).

Modelling conventions:
- JS numbers (pixel offsets, widths) are embedded as rationals (Rat); line
  numbers are Nat.
- A JS runtime TypeError (reading a property of undefined, e.g. ranges[0] of an
  empty array, or dereferencing a null endStyle) is embedded as Option.none of
  the enclosing computation.
- In-place mutation of the styles of ranges is embedded as a pure rebuild of the
  line list; the classifier only ever reads left/width/lineNumber of its input
  (never the styles being written), so this is faithful to the interleaved
  mutation in the source loop.
-/

namespace SelectionsGpu

/-- The corner-style enumeration from the source: CornerStyle.EXTERN, INTERN, FLAT. -/
inductive CornerStyle where
  | EXTERN
  | INTERN
  | FLAT
deriving DecidableEq, Repr

/-- IVisibleRangeEndPointStyle from the source: a top and bottom corner style for one
vertical edge of a range. -/
structure IVisibleRangeEndPointStyle where
  top : CornerStyle
  bottom : CornerStyle
deriving DecidableEq, Repr

/-- HorizontalRange from renderingContext.ts as consumed here: left pixel offset and width. -/
structure HorizontalRange where
  left : Rat
  width : Rat
deriving DecidableEq, Repr

/-- HorizontalRangeWithStyle from the source: left/width plus nullable startStyle/endStyle. -/
structure HorizontalRangeWithStyle where
  left : Rat
  width : Rat
  startStyle : Option IVisibleRangeEndPointStyle
  endStyle : Option IVisibleRangeEndPointStyle
deriving DecidableEq, Repr

/-- LineVisibleRanges (input shape): a line number with its list of visible ranges. -/
structure LineVisibleRanges where
  lineNumber : Nat
  ranges : List HorizontalRange
deriving DecidableEq, Repr

/-- LineVisibleRangesWithStyle from the source. -/
structure LineVisibleRangesWithStyle where
  lineNumber : Nat
  ranges : List HorizontalRangeWithStyle
deriving DecidableEq, Repr

/-- The viewport Range as used by the classifier: only startLineNumber and endLineNumber
are read from it in this file. -/
structure Viewport where
  startLineNumber : Nat
  endLineNumber : Nat
deriving DecidableEq, Repr

/-- toStyledRange from the source: the HorizontalRangeWithStyle constructor copies
left/width and initializes both styles to null. -/
def toStyledRange (item : HorizontalRange) : HorizontalRangeWithStyle :=
  { left := item.left, width := item.width, startStyle := none, endStyle := none }

/-- toStyled from the source: maps toStyledRange over the ranges of one line. -/
def toStyled (item : LineVisibleRanges) : LineVisibleRangesWithStyle :=
  { lineNumber := item.lineNumber, ranges := item.ranges.map toStyledRange }

/-- The local abs helper at the bottom of the source file: n < 0 ? -n : n. -/
def abs (n : Rat) : Rat :=
  if n < 0 then -n else n

/-- visibleRangesHaveGaps from the source: true iff some line has more than one range. -/
def visibleRangesHaveGaps (linesVisibleRanges : List LineVisibleRangesWithStyle) : Bool :=
  linesVisibleRanges.any (fun l => l.ranges.length > 1)

/-- The ascending scan of the previous frame performed for the top boundary line:
previousFrameTop is assigned previousFrame[i].ranges[0] at the first index whose
lineNumber matches; since undefined (an empty ranges array) is falsy in JS, the scan
keeps going past a matching line whose ranges are empty. -/
def findPreviousFrameTop (previousFrame : List LineVisibleRangesWithStyle)
    (topLineNumber : Nat) : Option HorizontalRangeWithStyle :=
  match previousFrame with
  | [] => none
  | l :: rest =>
    if l.lineNumber = topLineNumber then
      match l.ranges.head? with
      | some r => some r
      | none => findPreviousFrameTop rest topLineNumber
    else
      findPreviousFrameTop rest topLineNumber

/-- The source null-guard: a borrowed previous-frame range is discarded when its
startStyle is null. -/
def guardStyle (r : Option HorizontalRangeWithStyle) : Option HorizontalRangeWithStyle :=
  match r with
  | some r => if r.startStyle.isSome then some r else none
  | none => none

/-- The previousFrameTop computation of enrichVisibleRangesWithStyle (source lines
125-134 and 145-147): performed only when the first visible line's number equals
viewport.startLineNumber; an empty previous frame makes the scan find nothing. -/
def computePreviousFrameTop (viewport : Viewport)
    (linesVisibleRanges previousFrame : List LineVisibleRangesWithStyle) :
    Option HorizontalRangeWithStyle :=
  match linesVisibleRanges with
  | [] => none
  | topLine :: _ =>
    if topLine.lineNumber = viewport.startLineNumber then
      guardStyle (findPreviousFrameTop previousFrame topLine.lineNumber)
    else
      none

/-- The previousFrameBottom computation (source lines 136-143 and 148-150): performed
only when the last visible line's number equals viewport.endLineNumber, scanning the
previous frame descending from its end (embedded as the ascending scan of the reversed
list). -/
def computePreviousFrameBottom (viewport : Viewport)
    (linesVisibleRanges previousFrame : List LineVisibleRangesWithStyle) :
    Option HorizontalRangeWithStyle :=
  match linesVisibleRanges.getLast? with
  | none => none
  | some bottomLine =>
    if bottomLine.lineNumber = viewport.endLineNumber then
      guardStyle (findPreviousFrameTop previousFrame.reverse bottomLine.lineNumber)
    else
      none

/-- The geometry read of linesVisibleRanges[i].ranges[0] in the classification loop:
left and right edge of the single range; none embeds the JS TypeError raised when the
ranges array is empty. -/
def lineGeom (linesVisibleRanges : List LineVisibleRangesWithStyle) (i : Nat) :
    Option (Rat × Rat) :=
  match linesVisibleRanges[i]? with
  | none => none
  | some l =>
    match l.ranges.head? with
    | none => none
    | some r => some (r.left, r.left + r.width)

/-- The look-above block of the classification loop (source lines 169-184): given the
current and previous line geometry, the pair (startStyle.top, endStyle.top). -/
def classifyTop (epsilon curLeft curRight prevLeft prevRight : Rat) :
    CornerStyle × CornerStyle :=
  let startTop :=
    if abs (curLeft - prevLeft) < epsilon then CornerStyle.FLAT
    else if curLeft > prevLeft then CornerStyle.INTERN
    else CornerStyle.EXTERN
  let endTop :=
    if abs (curRight - prevRight) < epsilon then CornerStyle.FLAT
    else if prevLeft < curRight ∧ curRight < prevRight then CornerStyle.INTERN
    else CornerStyle.EXTERN
  (startTop, endTop)

/-- The look-below block of the classification loop (source lines 191-206): given the
current and next line geometry, the pair (startStyle.bottom, endStyle.bottom). -/
def classifyBottom (epsilon curLeft curRight nextLeft nextRight : Rat) :
    CornerStyle × CornerStyle :=
  let startBottom :=
    if abs (curLeft - nextLeft) < epsilon then CornerStyle.FLAT
    else if nextLeft < curLeft ∧ curLeft < nextRight then CornerStyle.INTERN
    else CornerStyle.EXTERN
  let endBottom :=
    if abs (curRight - nextRight) < epsilon then CornerStyle.FLAT
    else if curRight < nextRight then CornerStyle.INTERN
    else CornerStyle.EXTERN
  (startBottom, endBottom)

/-- The borrow at the top viewport boundary (source lines 185-189): reads
previousFrameTop.startStyle!.top and previousFrameTop.endStyle!.top; a null style under
the non-null assertion is the JS TypeError, embedded as none. -/
def borrowTop (pft : HorizontalRangeWithStyle) : Option (CornerStyle × CornerStyle) :=
  match pft.startStyle, pft.endStyle with
  | some ss, some es => some (ss.top, es.top)
  | _, _ => none

/-- The borrow at the bottom viewport boundary (source lines 207-211): reads
previousFrameBottom.startStyle!.bottom and previousFrameBottom.endStyle!.bottom. -/
def borrowBottom (pfb : HorizontalRangeWithStyle) : Option (CornerStyle × CornerStyle) :=
  match pfb.startStyle, pfb.endStyle with
  | some ss, some es => some (ss.bottom, es.bottom)
  | _, _ => none

/-- The i > 0 / previousFrameTop branch pair of the loop (source lines 169-189): the
top corners come from the line above when one exists, otherwise from the borrowed cache
entry, otherwise stay at the default EXTERN. -/
def topPart (epsilon : Rat) (linesVisibleRanges : List LineVisibleRangesWithStyle)
    (previousFrameTop : Option HorizontalRangeWithStyle) (i : Nat)
    (curLeft curRight : Rat) : Option (CornerStyle × CornerStyle) :=
  if 0 < i then
    match lineGeom linesVisibleRanges (i - 1) with
    | none => none
    | some (prevLeft, prevRight) =>
      some (classifyTop epsilon curLeft curRight prevLeft prevRight)
  else
    match previousFrameTop with
    | none => some (CornerStyle.EXTERN, CornerStyle.EXTERN)
    | some pft => borrowTop pft

/-- The i + 1 < len / previousFrameBottom branch pair of the loop (source lines
191-211). -/
def bottomPart (epsilon : Rat) (linesVisibleRanges : List LineVisibleRangesWithStyle)
    (previousFrameBottom : Option HorizontalRangeWithStyle) (i : Nat)
    (curLeft curRight : Rat) : Option (CornerStyle × CornerStyle) :=
  if i + 1 < linesVisibleRanges.length then
    match lineGeom linesVisibleRanges (i + 1) with
    | none => none
    | some (nextLeft, nextRight) =>
      some (classifyBottom epsilon curLeft curRight nextLeft nextRight)
  else
    match previousFrameBottom with
    | none => some (CornerStyle.EXTERN, CornerStyle.EXTERN)
    | some pfb => borrowBottom pfb

/-- The body of the classification loop for one index i (source lines 153-214),
producing the (startStyle, endStyle) pair assigned to ranges[0] of line i; none embeds
a JS TypeError (empty ranges array on a consulted line, or a borrowed cache entry with
a null style dereferenced by the non-null assertions startStyle! and endStyle!). -/
def classifyLine (epsilon : Rat) (linesVisibleRanges : List LineVisibleRangesWithStyle)
    (previousFrameTop previousFrameBottom : Option HorizontalRangeWithStyle) (i : Nat) :
    Option (IVisibleRangeEndPointStyle × IVisibleRangeEndPointStyle) :=
  match lineGeom linesVisibleRanges i with
  | none => none
  | some (curLeft, curRight) =>
    match topPart epsilon linesVisibleRanges previousFrameTop i curLeft curRight,
        bottomPart epsilon linesVisibleRanges previousFrameBottom i curLeft curRight with
    | some (st, et), some (sb, eb) =>
      some ({ top := st, bottom := sb }, { top := et, bottom := eb })
    | _, _ => none

/-- The in-place assignment curLineRange.startStyle = startStyle and
curLineRange.endStyle = endStyle, embedded as rebuilding the line with the head range
restyled; ranges past the first are untouched. -/
def setStyles (l : LineVisibleRangesWithStyle)
    (ss es : IVisibleRangeEndPointStyle) : LineVisibleRangesWithStyle :=
  { l with
    ranges :=
      match l.ranges with
      | [] => []
      | r :: rest => { r with startStyle := some ss, endStyle := some es } :: rest }

/-- The classification loop of enrichVisibleRangesWithStyle, walking the suffix of the
line list starting at index i over the full list all. -/
def enrichGo (epsilon : Rat) (all : List LineVisibleRangesWithStyle)
    (previousFrameTop previousFrameBottom : Option HorizontalRangeWithStyle) :
    List LineVisibleRangesWithStyle → Nat → Option (List LineVisibleRangesWithStyle)
  | [], _ => some []
  | l :: rest, i =>
    match classifyLine epsilon all previousFrameTop previousFrameBottom i with
    | none => none
    | some (ss, es) =>
      match enrichGo epsilon all previousFrameTop previousFrameBottom rest (i + 1) with
      | none => none
      | some rs => some (setStyles l ss es :: rs)

/-- enrichVisibleRangesWithStyle from the source: epsilon is
typicalHalfwidthCharacterWidth / 4; the two boundary cache entries are resolved first,
then every line's styles are assigned; none embeds a thrown TypeError. -/
def enrichVisibleRangesWithStyle (typicalHalfwidthCharacterWidth : Rat)
    (viewport : Viewport) (linesVisibleRanges : List LineVisibleRangesWithStyle)
    (previousFrame : Option (List LineVisibleRangesWithStyle)) :
    Option (List LineVisibleRangesWithStyle) :=
  let epsilon := typicalHalfwidthCharacterWidth / 4
  let pfTop :=
    match previousFrame with
    | none => none
    | some pf => computePreviousFrameTop viewport linesVisibleRanges pf
  let pfBottom :=
    match previousFrame with
    | none => none
    | some pf => computePreviousFrameBottom viewport linesVisibleRanges pf
  enrichGo epsilon linesVisibleRanges pfTop pfBottom linesVisibleRanges 0

/-- getVisibleRangesWithStyle from the source: the raw geometry (null becomes the empty
list) is converted to styled lines; classification runs only when there are no gaps and
rounded selection is enabled, mutating the lines in place; the (possibly enriched) line
list is returned. -/
def getVisibleRangesWithStyle (roundedSelection : Bool)
    (typicalHalfwidthCharacterWidth : Rat) (viewport : Viewport)
    (rawLinesVisibleRanges : Option (List LineVisibleRanges))
    (previousFrame : Option (List LineVisibleRangesWithStyle)) :
    Option (List LineVisibleRangesWithStyle) :=
  let linesVisibleRanges := (rawLinesVisibleRanges.getD []).map toStyled
  if visibleRangesHaveGaps linesVisibleRanges = false ∧ roundedSelection = true then
    enrichVisibleRangesWithStyle typicalHalfwidthCharacterWidth viewport
      linesVisibleRanges previousFrame
  else
    some linesVisibleRanges

/-- Modelled from the spec: the piece kinds of the SelectionPieceEmitter. In the source,
the live body of _actualRenderOneSelection (lines 244-245) is empty and the emitter
exists only as commented-out code, so the emitter below is modelled from the
specification (SelectionPieceEmitter): an inner-corner piece is either the
highlight-colored quad or the background-colored cutout quad drawn over it; a body
piece is the main quad spanning the range. -/
inductive PieceKind where
  | innerCornerHighlight
  | innerCornerCutout
  | body
deriving DecidableEq, Repr

/-- Modelled from the spec: one draw primitive of the emitter, a quad with vertical
insets, horizontal position and extent, and one rounding flag per corner. -/
structure SelectionPiece where
  kind : PieceKind
  top : Nat
  bottom : Nat
  left : Rat
  width : Rat
  roundTopLeft : Bool
  roundTopRight : Bool
  roundBottomLeft : Bool
  roundBottomRight : Bool
deriving DecidableEq, Repr

/-- Modelled from the spec: the fixed width of a corner piece. -/
def ROUNDED_PIECE_WIDTH : Rat := 10

/-- Modelled from the spec: the emission for one styled range. If the start edge has an
INTERN corner, a highlight quad immediately left of the range is emitted and then a
background cutout quad at the same position with the inverse rounding flags set per
which of top/bottom is INTERN; symmetric on the right for the end edge; the body quad
spans the range with outward-rounding flags exactly where the edge is EXTERN. The first
list holds the inner-corner pieces, the second the body pieces. An unstyled range
yields only a plain body quad. -/
def emitRangePieces (top bottom : Nat) (r : HorizontalRangeWithStyle) :
    List SelectionPiece × List SelectionPiece :=
  match r.startStyle, r.endStyle with
  | some startStyle, some endStyle =>
    let startCorner :=
      if startStyle.top = CornerStyle.INTERN ∨ startStyle.bottom = CornerStyle.INTERN then
        [ { kind := PieceKind.innerCornerHighlight, top := top, bottom := bottom,
            left := r.left - ROUNDED_PIECE_WIDTH, width := ROUNDED_PIECE_WIDTH,
            roundTopLeft := false, roundTopRight := false,
            roundBottomLeft := false, roundBottomRight := false },
          { kind := PieceKind.innerCornerCutout, top := top, bottom := bottom,
            left := r.left - ROUNDED_PIECE_WIDTH, width := ROUNDED_PIECE_WIDTH,
            roundTopLeft := false,
            roundTopRight := startStyle.top == CornerStyle.INTERN,
            roundBottomLeft := false,
            roundBottomRight := startStyle.bottom == CornerStyle.INTERN } ]
      else []
    let endCorner :=
      if endStyle.top = CornerStyle.INTERN ∨ endStyle.bottom = CornerStyle.INTERN then
        [ { kind := PieceKind.innerCornerHighlight, top := top, bottom := bottom,
            left := r.left + r.width, width := ROUNDED_PIECE_WIDTH,
            roundTopLeft := false, roundTopRight := false,
            roundBottomLeft := false, roundBottomRight := false },
          { kind := PieceKind.innerCornerCutout, top := top, bottom := bottom,
            left := r.left + r.width, width := ROUNDED_PIECE_WIDTH,
            roundTopLeft := endStyle.top == CornerStyle.INTERN,
            roundTopRight := false,
            roundBottomLeft := endStyle.bottom == CornerStyle.INTERN,
            roundBottomRight := false } ]
      else []
    let bodyPiece : SelectionPiece :=
      { kind := PieceKind.body, top := top, bottom := bottom,
        left := r.left, width := r.width,
        roundTopLeft := startStyle.top == CornerStyle.EXTERN,
        roundTopRight := endStyle.top == CornerStyle.EXTERN,
        roundBottomLeft := startStyle.bottom == CornerStyle.EXTERN,
        roundBottomRight := endStyle.bottom == CornerStyle.EXTERN }
    (startCorner ++ endCorner, [bodyPiece])
  | _, _ =>
    ([], [ { kind := PieceKind.body, top := top, bottom := bottom,
             left := r.left, width := r.width,
             roundTopLeft := false, roundTopRight := false,
             roundBottomLeft := false, roundBottomRight := false } ])

/-- Modelled from the spec: the per-line emission, keeping the inner-corner pieces of
all ranges of the line separate from the body pieces (the two accumulated outputs of
the per-line loop). The vertical insets depend on whether multiple selections exist and
on whether this is the first or last line of the selection. -/
def renderLinePieces (hasMultipleSelections : Bool)
    (firstLineNumber lastLineNumber : Nat) (line : LineVisibleRangesWithStyle) :
    List SelectionPiece × List SelectionPiece :=
  let top := if hasMultipleSelections = true ∧ line.lineNumber = firstLineNumber then 1 else 0
  let bottom :=
    if hasMultipleSelections = true ∧ line.lineNumber ≠ firstLineNumber ∧
        line.lineNumber = lastLineNumber then 1 else 0
  (line.ranges.flatMap (fun r => (emitRangePieces top bottom r).1),
   line.ranges.flatMap (fun r => (emitRangePieces top bottom r).2))

/-- Modelled from the spec: the final concatenated output for one line places the
inner-corner pieces before the body pieces. -/
def renderLineOutput (hasMultipleSelections : Bool)
    (firstLineNumber lastLineNumber : Nat) (line : LineVisibleRangesWithStyle) :
    List SelectionPiece :=
  (renderLinePieces hasMultipleSelections firstLineNumber lastLineNumber line).1 ++
  (renderLinePieces hasMultipleSelections firstLineNumber lastLineNumber line).2

/-- The data of a line that the classification loop reads: its line number and the
left/right edges of its first range (verification-side projection). -/
def lineShape (l : LineVisibleRangesWithStyle) : Nat × Option (Rat × Rat) :=
  (l.lineNumber, l.ranges.head?.map (fun r => (r.left, r.left + r.width)))

/-- The concrete scenario fixture of the specification: selection spanning lines 5-7
with ranges {left 10, width 50}, {left 0, width 80}, {left 0, width 30}, unclassified. -/
def scenarioLines : List LineVisibleRangesWithStyle :=
  [ ⟨5, [⟨10, 50, none, none⟩]⟩, ⟨6, [⟨0, 80, none, none⟩]⟩, ⟨7, [⟨0, 30, none, none⟩]⟩ ]

/-- The raw (unstyled) input of the scenario fixture, as returned by the geometry
provider. -/
def scenarioRaw : List LineVisibleRanges :=
  [ ⟨5, [⟨10, 50⟩]⟩, ⟨6, [⟨0, 80⟩]⟩, ⟨7, [⟨0, 30⟩]⟩ ]

/-- A previous-frame fixture: a styled entry for line 5 and an unstyled entry for
line 8. -/
def cacheFrame : List LineVisibleRangesWithStyle :=
  [ ⟨5, [⟨3, 40, some ⟨CornerStyle.FLAT, CornerStyle.EXTERN⟩,
          some ⟨CornerStyle.INTERN, CornerStyle.EXTERN⟩⟩]⟩,
    ⟨8, [⟨0, 10, none, none⟩]⟩ ]

theorem abs_sub_comm_q (a b : Rat) : abs (a - b) = abs (b - a) := by
  unfold abs
  split_ifs <;> linarith

theorem classifyLine_top_of_prev (epsilon : Rat)
    (lines : List LineVisibleRangesWithStyle)
    (pfT pfB : Option HorizontalRangeWithStyle) (i : Nat) (pl pr cl cr : Rat)
    (ss es : IVisibleRangeEndPointStyle)
    (h0 : 0 < i)
    (hprev : lineGeom lines (i - 1) = some (pl, pr))
    (hcur : lineGeom lines i = some (cl, cr))
    (hres : classifyLine epsilon lines pfT pfB i = some (ss, es)) :
    ss.top = (classifyTop epsilon cl cr pl pr).1 ∧
    es.top = (classifyTop epsilon cl cr pl pr).2 := by
  rcases hct : classifyTop epsilon cl cr pl pr with ⟨st, et⟩
  simp only [classifyLine, hcur, topPart, if_pos h0, hprev, hct] at hres
  rcases hbot : bottomPart epsilon lines pfB i cl cr with _ | ⟨sb, eb⟩ <;>
    rw [hbot] at hres <;> simp at hres
  obtain ⟨h1, h2⟩ := hres
  constructor
  · rw [← h1]
  · rw [← h2]

theorem classifyLine_bottom_of_next (epsilon : Rat)
    (lines : List LineVisibleRangesWithStyle)
    (pfT pfB : Option HorizontalRangeWithStyle) (i : Nat) (cl cr nl nr : Rat)
    (ss es : IVisibleRangeEndPointStyle)
    (hib : i + 1 < lines.length)
    (hcur : lineGeom lines i = some (cl, cr))
    (hnext : lineGeom lines (i + 1) = some (nl, nr))
    (hres : classifyLine epsilon lines pfT pfB i = some (ss, es)) :
    ss.bottom = (classifyBottom epsilon cl cr nl nr).1 ∧
    es.bottom = (classifyBottom epsilon cl cr nl nr).2 := by
  rcases hcb : classifyBottom epsilon cl cr nl nr with ⟨sb, eb⟩
  simp only [classifyLine, hcur, bottomPart, if_pos hib, hnext, hcb] at hres
  rcases htop : topPart epsilon lines pfT i cl cr with _ | ⟨st, et⟩ <;>
    rw [htop] at hres <;> simp at hres
  obtain ⟨h1, h2⟩ := hres
  constructor
  · rw [← h1]
  · rw [← h2]

theorem classifyLine_first_top_default (epsilon : Rat)
    (lines : List LineVisibleRangesWithStyle)
    (pfB : Option HorizontalRangeWithStyle) (ss es : IVisibleRangeEndPointStyle)
    (hres : classifyLine epsilon lines none pfB 0 = some (ss, es)) :
    ss.top = CornerStyle.EXTERN ∧ es.top = CornerStyle.EXTERN := by
  rcases hg : lineGeom lines 0 with _ | ⟨cl, cr⟩ <;>
    simp only [classifyLine, hg, topPart, lt_self_iff_false, if_false] at hres
  · exact absurd hres (by simp)
  · rcases hbot : bottomPart epsilon lines pfB 0 cl cr with _ | ⟨sb, eb⟩ <;>
      rw [hbot] at hres <;> simp at hres
    obtain ⟨h1, h2⟩ := hres
    constructor
    · rw [← h1]
    · rw [← h2]

theorem classifyLine_last_bottom_default (epsilon : Rat)
    (lines : List LineVisibleRangesWithStyle)
    (pfT : Option HorizontalRangeWithStyle) (i : Nat)
    (ss es : IVisibleRangeEndPointStyle)
    (hlast : ¬ i + 1 < lines.length)
    (hres : classifyLine epsilon lines pfT none i = some (ss, es)) :
    ss.bottom = CornerStyle.EXTERN ∧ es.bottom = CornerStyle.EXTERN := by
  rcases hg : lineGeom lines i with _ | ⟨cl, cr⟩ <;>
    simp only [classifyLine, hg, bottomPart, if_neg hlast] at hres
  · exact absurd hres (by simp)
  · rcases htop : topPart epsilon lines pfT i cl cr with _ | ⟨st, et⟩ <;>
      rw [htop] at hres <;> simp at hres
    obtain ⟨h1, h2⟩ := hres
    constructor
    · rw [← h1]
    · rw [← h2]

theorem classifyTop_startTop_flat (epsilon cl cr pl pr : Rat)
    (h : abs (cl - pl) < epsilon) :
    (classifyTop epsilon cl cr pl pr).1 = CornerStyle.FLAT := by
  simp [classifyTop, h]

theorem classifyTop_endTop_flat (epsilon cl cr pl pr : Rat)
    (h : abs (cr - pr) < epsilon) :
    (classifyTop epsilon cl cr pl pr).2 = CornerStyle.FLAT := by
  simp [classifyTop, h]

theorem classifyBottom_startBottom_flat (epsilon cl cr nl nr : Rat)
    (h : abs (cl - nl) < epsilon) :
    (classifyBottom epsilon cl cr nl nr).1 = CornerStyle.FLAT := by
  simp [classifyBottom, h]

theorem classifyBottom_endBottom_flat (epsilon cl cr nl nr : Rat)
    (h : abs (cr - nr) < epsilon) :
    (classifyBottom epsilon cl cr nl nr).2 = CornerStyle.FLAT := by
  simp [classifyBottom, h]

theorem classifyBottom_endBottom_of_far (epsilon cl cr nl nr : Rat)
    (h : ¬ abs (cr - nr) < epsilon) :
    ((classifyBottom epsilon cl cr nl nr).2 = CornerStyle.INTERN ↔ cr < nr) := by
  by_cases hlt : cr < nr
  · simp [classifyBottom, h, hlt]
  · simp [classifyBottom, h, hlt]

theorem classifyTop_startTop_intern (epsilon cl cr pl pr : Rat)
    (heps : 0 < epsilon) (h : epsilon ≤ cl - pl) :
    (classifyTop epsilon cl cr pl pr).1 = CornerStyle.INTERN := by
  have h1 : epsilon ≤ abs (cl - pl) := by unfold abs; split_ifs <;> linarith
  have h2 : pl < cl := by linarith
  simp [classifyTop, not_lt.mpr h1, h2]

theorem classifyTop_startTop_extern (epsilon cl cr pl pr : Rat)
    (heps : 0 < epsilon) (h : epsilon ≤ pl - cl) :
    (classifyTop epsilon cl cr pl pr).1 = CornerStyle.EXTERN := by
  have h1 : epsilon ≤ abs (cl - pl) := by unfold abs; split_ifs <;> linarith
  have h2 : ¬ pl < cl := by linarith
  simp [classifyTop, not_lt.mpr h1, h2]

/-- C5: for every classified line i with a line below (i + 1 < len), when the right
edges of line i and line i + 1 differ by at least epsilon, endStyle.bottom is INTERN if
and only if curRight < nextRight; no condition on nextLeft enters this rule, unlike the
other three INTERN rules. -/
theorem endStyleBottom_intern_iff_right_less (epsilon : Rat)
    (lines : List LineVisibleRangesWithStyle)
    (pfT pfB : Option HorizontalRangeWithStyle) (i : Nat) (cl cr nl nr : Rat)
    (ss es : IVisibleRangeEndPointStyle)
    (hib : i + 1 < lines.length)
    (hcur : lineGeom lines i = some (cl, cr))
    (hnext : lineGeom lines (i + 1) = some (nl, nr))
    (heps : ¬ abs (cr - nr) < epsilon)
    (hres : classifyLine epsilon lines pfT pfB i = some (ss, es)) :
    (es.bottom = CornerStyle.INTERN ↔ cr < nr) := by
  obtain ⟨_, h2⟩ :=
    classifyLine_bottom_of_next epsilon lines pfT pfB i cl cr nl nr ss es hib hcur hnext hres
  rw [h2]
  exact classifyBottom_endBottom_of_far epsilon cl cr nl nr heps

/-- Witness for C5: the scenario line 5 over line 6 with epsilon 2: right edges 60 and
80 are at least epsilon apart and endStyle.bottom is INTERN, with 60 < 80. -/
theorem endStyleBottom_intern_iff_right_less_witness :
    (({ top := CornerStyle.EXTERN, bottom := CornerStyle.INTERN } :
        IVisibleRangeEndPointStyle).bottom = CornerStyle.INTERN ↔ (60 : Rat) < 80) :=
  endStyleBottom_intern_iff_right_less 2 scenarioLines none none 0 10 60 0 80
    { top := CornerStyle.EXTERN, bottom := CornerStyle.INTERN }
    { top := CornerStyle.EXTERN, bottom := CornerStyle.INTERN }
    (by norm_num [scenarioLines])
    (by norm_num [lineGeom, scenarioLines])
    (by norm_num [lineGeom, scenarioLines])
    (by norm_num [abs])
    (by norm_num [classifyLine, topPart, bottomPart, classifyTop, classifyBottom,
      lineGeom, scenarioLines, abs])

/-- C7: for adjacent classified lines i and i + 1, left edges within epsilon make
startStyle.bottom of line i and startStyle.top of line i + 1 both FLAT, and right edges
within epsilon make endStyle.bottom of line i and endStyle.top of line i + 1 both
FLAT. -/
theorem flat_adjacency_both_lines (epsilon : Rat)
    (lines : List LineVisibleRangesWithStyle)
    (pfT pfB : Option HorizontalRangeWithStyle) (i : Nat) (cl cr nl nr : Rat)
    (ssi esi ssj esj : IVisibleRangeEndPointStyle)
    (hib : i + 1 < lines.length)
    (hcur : lineGeom lines i = some (cl, cr))
    (hnext : lineGeom lines (i + 1) = some (nl, nr))
    (hi : classifyLine epsilon lines pfT pfB i = some (ssi, esi))
    (hj : classifyLine epsilon lines pfT pfB (i + 1) = some (ssj, esj)) :
    (abs (cl - nl) < epsilon →
      ssi.bottom = CornerStyle.FLAT ∧ ssj.top = CornerStyle.FLAT) ∧
    (abs (cr - nr) < epsilon →
      esi.bottom = CornerStyle.FLAT ∧ esj.top = CornerStyle.FLAT) := by
  obtain ⟨hb1, hb2⟩ :=
    classifyLine_bottom_of_next epsilon lines pfT pfB i cl cr nl nr ssi esi hib hcur hnext hi
  have hprev : lineGeom lines (i + 1 - 1) = some (cl, cr) := by simpa using hcur
  obtain ⟨ht1, ht2⟩ :=
    classifyLine_top_of_prev epsilon lines pfT pfB (i + 1) cl cr nl nr ssj esj
      (Nat.succ_pos i) hprev hnext hj
  constructor
  · intro h
    constructor
    · rw [hb1]; exact classifyBottom_startBottom_flat epsilon cl cr nl nr h
    · rw [ht1]
      exact classifyTop_startTop_flat epsilon nl nr cl cr (by rwa [abs_sub_comm_q] at h)
  · intro h
    constructor
    · rw [hb2]; exact classifyBottom_endBottom_flat epsilon cl cr nl nr h
    · rw [ht2]
      exact classifyTop_endTop_flat epsilon nl nr cl cr (by rwa [abs_sub_comm_q] at h)

/-- Witness for C7: scenario lines 6 and 7 with epsilon 2: left edges 0 and 0 are
within epsilon, so line 6 startStyle.bottom and line 7 startStyle.top are both FLAT;
right edges 80 and 30 are not within epsilon. -/
theorem flat_adjacency_both_lines_witness :
    (abs ((0 : Rat) - 0) < 2 →
      ({ top := CornerStyle.EXTERN, bottom := CornerStyle.FLAT } :
        IVisibleRangeEndPointStyle).bottom = CornerStyle.FLAT ∧
      ({ top := CornerStyle.FLAT, bottom := CornerStyle.EXTERN } :
        IVisibleRangeEndPointStyle).top = CornerStyle.FLAT) ∧
    (abs ((80 : Rat) - 30) < 2 →
      ({ top := CornerStyle.EXTERN, bottom := CornerStyle.EXTERN } :
        IVisibleRangeEndPointStyle).bottom = CornerStyle.FLAT ∧
      ({ top := CornerStyle.INTERN, bottom := CornerStyle.EXTERN } :
        IVisibleRangeEndPointStyle).top = CornerStyle.FLAT) :=
  flat_adjacency_both_lines 2 scenarioLines none none 1 0 80 0 30
    { top := CornerStyle.EXTERN, bottom := CornerStyle.FLAT }
    { top := CornerStyle.EXTERN, bottom := CornerStyle.EXTERN }
    { top := CornerStyle.FLAT, bottom := CornerStyle.EXTERN }
    { top := CornerStyle.INTERN, bottom := CornerStyle.EXTERN }
    (by norm_num [scenarioLines])
    (by norm_num [lineGeom, scenarioLines])
    (by norm_num [lineGeom, scenarioLines])
    (by norm_num [classifyLine, topPart, bottomPart, classifyTop, classifyBottom,
      lineGeom, scenarioLines, abs])
    (by norm_num [classifyLine, topPart, bottomPart, classifyTop, classifyBottom,
      lineGeom, scenarioLines, abs])

/-- C8: for a classified line i with a line above, a left edge at least epsilon to the
right of the line above makes startStyle.top INTERN, and a left edge at least epsilon
to the left of the line above makes startStyle.top EXTERN (never INTERN); epsilon is a
quarter of the typical halfwidth character advance, hence positive. -/
theorem startStyleTop_intern_direction (epsilon : Rat)
    (lines : List LineVisibleRangesWithStyle)
    (pfT pfB : Option HorizontalRangeWithStyle) (i : Nat) (pl pr cl cr : Rat)
    (ss es : IVisibleRangeEndPointStyle)
    (heps : 0 < epsilon) (h0 : 0 < i)
    (hprev : lineGeom lines (i - 1) = some (pl, pr))
    (hcur : lineGeom lines i = some (cl, cr))
    (hres : classifyLine epsilon lines pfT pfB i = some (ss, es)) :
    (epsilon ≤ cl - pl → ss.top = CornerStyle.INTERN) ∧
    (epsilon ≤ pl - cl → ss.top = CornerStyle.EXTERN) := by
  obtain ⟨ht1, _⟩ :=
    classifyLine_top_of_prev epsilon lines pfT pfB i pl pr cl cr ss es h0 hprev hcur hres
  constructor
  · intro h; rw [ht1]; exact classifyTop_startTop_intern epsilon cl cr pl pr heps h
  · intro h; rw [ht1]; exact classifyTop_startTop_extern epsilon cl cr pl pr heps h

/-- Witness for C8: scenario line 6 under line 5 with epsilon 2: left edge 0 is at
least epsilon to the left of 10, and startStyle.top is EXTERN. -/
theorem startStyleTop_intern_direction_witness :
    ((2 : Rat) ≤ 0 - 10 →
      ({ top := CornerStyle.EXTERN, bottom := CornerStyle.FLAT } :
        IVisibleRangeEndPointStyle).top = CornerStyle.INTERN) ∧
    ((2 : Rat) ≤ 10 - 0 →
      ({ top := CornerStyle.EXTERN, bottom := CornerStyle.FLAT } :
        IVisibleRangeEndPointStyle).top = CornerStyle.EXTERN) :=
  startStyleTop_intern_direction 2 scenarioLines none none 1 10 60 0 80
    { top := CornerStyle.EXTERN, bottom := CornerStyle.FLAT }
    { top := CornerStyle.EXTERN, bottom := CornerStyle.EXTERN }
    (by norm_num)
    (by norm_num)
    (by norm_num [lineGeom, scenarioLines])
    (by norm_num [lineGeom, scenarioLines])
    (by norm_num [classifyLine, topPart, bottomPart, classifyTop, classifyBottom,
      lineGeom, scenarioLines, abs])

/-- C6: the concrete scenario: selection spans lines 5-7 with epsilon 2 (typical
halfwidth character advance 8), line 5 at left 10 width 50, line 6 at left 0 width 80,
line 7 at left 0 width 30, no stabilization cache. Line 5 gets startStyle EXTERN/INTERN
and endStyle EXTERN/INTERN; line 7 gets startStyle.top FLAT and endStyle.top INTERN. -/
theorem scenario_classification_lines_5_to_7 :
    enrichVisibleRangesWithStyle 8 ⟨5, 7⟩ scenarioLines none =
    some
      [ ⟨5, [⟨10, 50, some ⟨CornerStyle.EXTERN, CornerStyle.INTERN⟩,
              some ⟨CornerStyle.EXTERN, CornerStyle.INTERN⟩⟩]⟩,
        ⟨6, [⟨0, 80, some ⟨CornerStyle.EXTERN, CornerStyle.FLAT⟩,
              some ⟨CornerStyle.EXTERN, CornerStyle.EXTERN⟩⟩]⟩,
        ⟨7, [⟨0, 30, some ⟨CornerStyle.FLAT, CornerStyle.EXTERN⟩,
              some ⟨CornerStyle.INTERN, CornerStyle.EXTERN⟩⟩]⟩ ] := by
  norm_num [enrichVisibleRangesWithStyle, enrichGo, classifyLine, topPart, bottomPart,
    classifyTop, classifyBottom, lineGeom, abs, setStyles, computePreviousFrameTop,
    computePreviousFrameBottom, scenarioLines]

theorem findPreviousFrameTop_eq_find (pf : List LineVisibleRangesWithStyle) (n : Nat)
    (hne : ∀ l ∈ pf, l.ranges ≠ []) :
    findPreviousFrameTop pf n =
      (pf.find? (fun l => l.lineNumber == n)).bind (fun l => l.ranges.head?) := by
  induction pf with
  | nil => rfl
  | cons l rest ih =>
    have hrest : ∀ x ∈ rest, x.ranges ≠ [] :=
      fun x hx => hne x (List.mem_cons_of_mem l hx)
    by_cases h : l.lineNumber = n
    · have hl : l.ranges ≠ [] := hne l (List.mem_cons_self l rest)
      rcases hr : l.ranges.head? with _ | r
      · exact absurd (List.head?_eq_none_iff.mp hr) hl
      · simp [findPreviousFrameTop, h, hr, List.find?_cons_of_pos]
    · simp [findPreviousFrameTop, h, List.find?_cons_of_neg, ih hrest]

/-- C2: boundary borrow gating: the stabilization cache is consulted for the first
visible line if and only if its number equals viewport.startLineNumber (ascending scan
of the previous frame for the first matching line number) and for the last visible line
if and only if its number equals viewport.endLineNumber (descending scan from the end);
a boundary line without a borrowed entry keeps the EXTERN default, and interior lines
never consult the cache. -/
theorem stabilization_cache_gating (viewport : Viewport)
    (lines pf : List LineVisibleRangesWithStyle) :
    (∀ topLine rest, lines = topLine :: rest →
      topLine.lineNumber ≠ viewport.startLineNumber →
      computePreviousFrameTop viewport lines pf = none) ∧
    (∀ topLine rest, lines = topLine :: rest →
      topLine.lineNumber = viewport.startLineNumber →
      (∀ l ∈ pf, l.ranges ≠ []) →
      computePreviousFrameTop viewport lines pf =
        guardStyle ((pf.find? (fun l => l.lineNumber == topLine.lineNumber)).bind
          (fun l => l.ranges.head?))) ∧
    (∀ bottomLine, lines.getLast? = some bottomLine →
      bottomLine.lineNumber ≠ viewport.endLineNumber →
      computePreviousFrameBottom viewport lines pf = none) ∧
    (∀ bottomLine, lines.getLast? = some bottomLine →
      bottomLine.lineNumber = viewport.endLineNumber →
      (∀ l ∈ pf, l.ranges ≠ []) →
      computePreviousFrameBottom viewport lines pf =
        guardStyle ((pf.reverse.find? (fun l => l.lineNumber == bottomLine.lineNumber)).bind
          (fun l => l.ranges.head?))) ∧
    (∀ epsilon i pfT pfB pfT2 pfB2, 0 < i → i + 1 < lines.length →
      classifyLine epsilon lines pfT pfB i = classifyLine epsilon lines pfT2 pfB2 i) ∧
    (∀ epsilon pfB ss es, classifyLine epsilon lines none pfB 0 = some (ss, es) →
      ss.top = CornerStyle.EXTERN ∧ es.top = CornerStyle.EXTERN) ∧
    (∀ epsilon pfT i ss es, ¬ i + 1 < lines.length →
      classifyLine epsilon lines pfT none i = some (ss, es) →
      ss.bottom = CornerStyle.EXTERN ∧ es.bottom = CornerStyle.EXTERN) := by
  refine ⟨?_, ?_, ?_, ?_, ?_, ?_, ?_⟩
  · intro topLine rest hl hne
    subst hl
    simp [computePreviousFrameTop, hne]
  · intro topLine rest hl heq hne
    subst hl
    simp [computePreviousFrameTop, heq, findPreviousFrameTop_eq_find pf _ hne]
  · intro bottomLine hl hne
    simp [computePreviousFrameBottom, hl, hne]
  · intro bottomLine hl heq hne
    have hner : ∀ l ∈ pf.reverse, l.ranges ≠ [] :=
      fun l hlm => hne l (List.mem_reverse.mp hlm)
    simp [computePreviousFrameBottom, hl, heq,
      findPreviousFrameTop_eq_find pf.reverse _ hner]
  · intro epsilon i pfT pfB pfT2 pfB2 h0 hib
    simp only [classifyLine, topPart, bottomPart, if_pos h0, if_pos hib]
  · intro epsilon pfB ss es hres
    exact classifyLine_first_top_default epsilon lines pfB ss es hres
  · intro epsilon pfT i ss es hlast hres
    exact classifyLine_last_bottom_default epsilon lines pfT i ss es hlast hres

/-- Witness for C2: with the scenario lines in a viewport starting at line 5, the top
borrow is exactly the guarded ascending search of the cache frame; with a viewport
ending at line 9 instead of 7, the bottom borrow is skipped. -/
theorem stabilization_cache_gating_witness :
    computePreviousFrameTop ⟨5, 7⟩ scenarioLines cacheFrame =
      guardStyle ((cacheFrame.find? (fun l => l.lineNumber == 5)).bind
        (fun l => l.ranges.head?)) ∧
    computePreviousFrameBottom ⟨5, 9⟩ scenarioLines cacheFrame = none := by
  constructor
  · have h := (stabilization_cache_gating ⟨5, 7⟩ scenarioLines cacheFrame).2.1
    exact h ⟨5, [⟨10, 50, none, none⟩]⟩
      [⟨6, [⟨0, 80, none, none⟩]⟩, ⟨7, [⟨0, 30, none, none⟩]⟩] rfl rfl
      (by norm_num [cacheFrame])
  · have h := (stabilization_cache_gating ⟨5, 9⟩ scenarioLines cacheFrame).2.2.1
    exact h ⟨7, [⟨0, 30, none, none⟩]⟩ (by norm_num [scenarioLines]) (by norm_num)

theorem head?_mem_ranges (l : LineVisibleRangesWithStyle)
    (r : HorizontalRangeWithStyle) (h : l.ranges.head? = some r) : r ∈ l.ranges := by
  rcases hr : l.ranges with _ | ⟨a, t⟩
  · rw [hr] at h; simp at h
  · rw [hr] at h
    simp at h
    subst h
    exact List.mem_cons_self a t

theorem lineGeom_isSome (lines : List LineVisibleRangesWithStyle)
    (h : ∀ l ∈ lines, l.ranges ≠ []) (i : Nat) (hi : i < lines.length) :
    (lineGeom lines i).isSome := by
  rcases hg : lines[i]? with _ | l
  · rw [List.getElem?_eq_none_iff] at hg
    omega
  · have hmem : l ∈ lines := List.getElem?_mem hg
    rcases hr : l.ranges.head? with _ | r
    · exact absurd (List.head?_eq_none_iff.mp hr) (h l hmem)
    · simp [lineGeom, hg, hr]

theorem findPreviousFrameTop_mem (pf : List LineVisibleRangesWithStyle) (n : Nat)
    (r : HorizontalRangeWithStyle) (h : findPreviousFrameTop pf n = some r) :
    ∃ l ∈ pf, r ∈ l.ranges := by
  induction pf with
  | nil => simp [findPreviousFrameTop] at h
  | cons l rest ih =>
    by_cases hn : l.lineNumber = n
    · rcases hr : l.ranges.head? with _ | rh
      · simp only [findPreviousFrameTop, if_pos hn, hr] at h
        obtain ⟨l2, hl2, hr2⟩ := ih h
        exact ⟨l2, List.mem_cons_of_mem l hl2, hr2⟩
      · simp only [findPreviousFrameTop, if_pos hn, hr, Option.some.injEq] at h
        subst h
        exact ⟨l, List.mem_cons_self l rest, head?_mem_ranges l rh hr⟩
    · simp only [findPreviousFrameTop, if_neg hn] at h
      obtain ⟨l2, hl2, hr2⟩ := ih h
      exact ⟨l2, List.mem_cons_of_mem l hl2, hr2⟩

theorem guardStyle_safe (x : Option HorizontalRangeWithStyle)
    (pf : List LineVisibleRangesWithStyle) (n : Nat)
    (hpf : ∀ l ∈ pf, ∀ r ∈ l.ranges, r.startStyle.isSome → r.endStyle.isSome)
    (hx : x = findPreviousFrameTop pf n)
    (r : HorizontalRangeWithStyle) (h : guardStyle x = some r) :
    r.startStyle.isSome ∧ r.endStyle.isSome := by
  rcases hf : x with _ | r2 <;> rw [hf] at h <;> simp [guardStyle] at h
  obtain ⟨hstart, heq⟩ := h
  subst heq
  rw [hf] at hx
  obtain ⟨l2, hl2, hr2⟩ := findPreviousFrameTop_mem pf n r2 hx.symm
  exact ⟨hstart, hpf l2 hl2 r2 hr2 hstart⟩

theorem computePreviousFrameTop_safe (viewport : Viewport)
    (lines pf : List LineVisibleRangesWithStyle)
    (hpf : ∀ l ∈ pf, ∀ r ∈ l.ranges, r.startStyle.isSome → r.endStyle.isSome)
    (r : HorizontalRangeWithStyle)
    (h : computePreviousFrameTop viewport lines pf = some r) :
    r.startStyle.isSome ∧ r.endStyle.isSome := by
  rcases lines with _ | ⟨topLine, rest⟩
  · simp [computePreviousFrameTop] at h
  · by_cases hc : topLine.lineNumber = viewport.startLineNumber
    · simp only [computePreviousFrameTop, if_pos hc] at h
      exact guardStyle_safe _ pf topLine.lineNumber hpf rfl r h
    · simp only [computePreviousFrameTop, if_neg hc] at h
      exact absurd h (by simp)

theorem computePreviousFrameBottom_safe (viewport : Viewport)
    (lines pf : List LineVisibleRangesWithStyle)
    (hpf : ∀ l ∈ pf, ∀ r ∈ l.ranges, r.startStyle.isSome → r.endStyle.isSome)
    (r : HorizontalRangeWithStyle)
    (h : computePreviousFrameBottom viewport lines pf = some r) :
    r.startStyle.isSome ∧ r.endStyle.isSome := by
  have hpfr : ∀ l ∈ pf.reverse, ∀ rr ∈ l.ranges,
      rr.startStyle.isSome → rr.endStyle.isSome :=
    fun l hl => hpf l (List.mem_reverse.mp hl)
  rcases hl : lines.getLast? with _ | bottomLine
  · simp [computePreviousFrameBottom, hl] at h
  · by_cases hc : bottomLine.lineNumber = viewport.endLineNumber
    · simp only [computePreviousFrameBottom, hl, if_pos hc] at h
      exact guardStyle_safe _ pf.reverse bottomLine.lineNumber hpfr rfl r h
    · simp only [computePreviousFrameBottom, hl, if_neg hc] at h
      exact absurd h (by simp)

theorem borrowTop_isSome (r : HorizontalRangeWithStyle)
    (h1 : r.startStyle.isSome) (h2 : r.endStyle.isSome) : (borrowTop r).isSome := by
  obtain ⟨ss, hss⟩ := Option.isSome_iff_exists.mp h1
  obtain ⟨es, hes⟩ := Option.isSome_iff_exists.mp h2
  simp [borrowTop, hss, hes]

theorem borrowBottom_isSome (r : HorizontalRangeWithStyle)
    (h1 : r.startStyle.isSome) (h2 : r.endStyle.isSome) : (borrowBottom r).isSome := by
  obtain ⟨ss, hss⟩ := Option.isSome_iff_exists.mp h1
  obtain ⟨es, hes⟩ := Option.isSome_iff_exists.mp h2
  simp [borrowBottom, hss, hes]

theorem classifyLine_isSome (epsilon : Rat) (lines : List LineVisibleRangesWithStyle)
    (pfT pfB : Option HorizontalRangeWithStyle) (i : Nat)
    (hgeom : ∀ j, j < lines.length → (lineGeom lines j).isSome)
    (hi : i < lines.length)
    (hpfT : ∀ r, pfT = some r → r.startStyle.isSome ∧ r.endStyle.isSome)
    (hpfB : ∀ r, pfB = some r → r.startStyle.isSome ∧ r.endStyle.isSome) :
    (classifyLine epsilon lines pfT pfB i).isSome := by
  obtain ⟨⟨cl, cr⟩, hcur⟩ := Option.isSome_iff_exists.mp (hgeom i hi)
  have htop : (topPart epsilon lines pfT i cl cr).isSome := by
    unfold topPart
    by_cases h0 : 0 < i
    · rw [if_pos h0]
      obtain ⟨⟨pl, pr⟩, hprev⟩ := Option.isSome_iff_exists.mp (hgeom (i - 1) (by omega))
      simp [hprev]
    · rw [if_neg h0]
      rcases hp : pfT with _ | r
      · simp
      · obtain ⟨h1, h2⟩ := hpfT r hp
        exact borrowTop_isSome r h1 h2
  have hbot : (bottomPart epsilon lines pfB i cl cr).isSome := by
    unfold bottomPart
    by_cases hib : i + 1 < lines.length
    · rw [if_pos hib]
      obtain ⟨⟨nl, nr⟩, hnext⟩ := Option.isSome_iff_exists.mp (hgeom (i + 1) hib)
      simp [hnext]
    · rw [if_neg hib]
      rcases hp : pfB with _ | r
      · simp
      · obtain ⟨h1, h2⟩ := hpfB r hp
        exact borrowBottom_isSome r h1 h2
  obtain ⟨⟨st, et⟩, ht⟩ := Option.isSome_iff_exists.mp htop
  obtain ⟨⟨sb, eb⟩, hb⟩ := Option.isSome_iff_exists.mp hbot
  simp [classifyLine, hcur, ht, hb]

theorem enrichGo_isSome (epsilon : Rat) (all : List LineVisibleRangesWithStyle)
    (pfT pfB : Option HorizontalRangeWithStyle)
    (hgeom : ∀ j, j < all.length → (lineGeom all j).isSome)
    (hpfT : ∀ r, pfT = some r → r.startStyle.isSome ∧ r.endStyle.isSome)
    (hpfB : ∀ r, pfB = some r → r.startStyle.isSome ∧ r.endStyle.isSome) :
    ∀ rest i, i + rest.length = all.length →
      (enrichGo epsilon all pfT pfB rest i).isSome := by
  intro rest
  induction rest with
  | nil => intro i hlen; simp [enrichGo]
  | cons l rs ih =>
    intro i hlen
    simp only [List.length_cons] at hlen
    have hi : i < all.length := by omega
    obtain ⟨⟨ss, es⟩, hc⟩ := Option.isSome_iff_exists.mp
      (classifyLine_isSome epsilon all pfT pfB i hgeom hi hpfT hpfB)
    obtain ⟨rs2, hr⟩ := Option.isSome_iff_exists.mp (ih (i + 1) (by omega))
    simp [enrichGo, hc, hr]

theorem enrichVisibleRangesWithStyle_isSome (thw : Rat) (viewport : Viewport)
    (lines : List LineVisibleRangesWithStyle)
    (pf : Option (List LineVisibleRangesWithStyle))
    (hne : ∀ l ∈ lines, l.ranges ≠ [])
    (hpf : ∀ pfl, pf = some pfl → ∀ l ∈ pfl, ∀ r ∈ l.ranges,
      r.startStyle.isSome → r.endStyle.isSome) :
    (enrichVisibleRangesWithStyle thw viewport lines pf).isSome := by
  have hgeom : ∀ j, j < lines.length → (lineGeom lines j).isSome :=
    fun j hj => lineGeom_isSome lines hne j hj
  rcases pf with _ | pfl
  · simp only [enrichVisibleRangesWithStyle]
    exact enrichGo_isSome _ lines none none hgeom
      (by intro r hr; simp at hr) (by intro r hr; simp at hr) lines 0 (by simp)
  · simp only [enrichVisibleRangesWithStyle]
    exact enrichGo_isSome _ lines _ _ hgeom
      (fun r hr => computePreviousFrameTop_safe viewport lines pfl (hpf pfl rfl) r hr)
      (fun r hr => computePreviousFrameBottom_safe viewport lines pfl (hpf pfl rfl) r hr)
      lines 0 (by simp)

/-- Counterexample to C4 as stated: a visible line whose ranges array is empty (no gap
is detected for it, and rounding is enabled) makes the classification loop read
ranges[0] of an empty array: the pipeline fails (a thrown TypeError, embedded as none)
instead of degrading to a safe default output. -/
theorem pipeline_crashes_on_empty_ranges_line :
    getVisibleRangesWithStyle true 8 ⟨5, 5⟩ (some [⟨5, []⟩]) none = none := by rfl

/-- C4 amended: the per-frame pipeline never fails provided every visible line has at
least one range and every previous-frame range that has a startStyle also has an
endStyle; without the first proviso, a line with empty geometry crashes the
classification loop (see the counterexample) rather than degrading to a safe
default. -/
theorem pipeline_total_on_wellformed_input (roundedSelection : Bool) (thw : Rat)
    (viewport : Viewport) (raw : Option (List LineVisibleRanges))
    (pf : Option (List LineVisibleRangesWithStyle))
    (hne : ∀ lr ∈ raw.getD [], lr.ranges ≠ [])
    (hpf : ∀ pfl, pf = some pfl → ∀ l ∈ pfl, ∀ r ∈ l.ranges,
      r.startStyle.isSome → r.endStyle.isSome) :
    (getVisibleRangesWithStyle roundedSelection thw viewport raw pf).isSome := by
  have hne2 : ∀ l ∈ (raw.getD []).map toStyled, l.ranges ≠ [] := by
    intro l hl
    obtain ⟨lr, hlr, hleq⟩ := List.mem_map.mp hl
    subst hleq
    simpa [toStyled] using hne lr hlr
  simp only [getVisibleRangesWithStyle]
  split_ifs with hcond
  · exact enrichVisibleRangesWithStyle_isSome thw viewport _ pf hne2 hpf
  · simp

/-- Witness for C4 amended: the scenario input (one range per line, no previous frame)
yields a defined output. -/
theorem pipeline_total_on_wellformed_input_witness :
    (getVisibleRangesWithStyle true 8 ⟨5, 7⟩ (some scenarioRaw) none).isSome :=
  pipeline_total_on_wellformed_input true 8 ⟨5, 7⟩ (some scenarioRaw) none
    (by norm_num [scenarioRaw])
    (by intro pfl h; simp at h)

theorem enrichGo_styles_inv (epsilon : Rat) (all : List LineVisibleRangesWithStyle)
    (pfT pfB : Option HorizontalRangeWithStyle) :
    ∀ rest i out, enrichGo epsilon all pfT pfB rest i = some out →
    (∀ l ∈ rest, ∀ r ∈ l.ranges, (r.startStyle.isSome ↔ r.endStyle.isSome)) →
    ∀ l ∈ out, ∀ r ∈ l.ranges, (r.startStyle.isSome ↔ r.endStyle.isSome) := by
  intro rest
  induction rest with
  | nil =>
    intro i out h hrest
    simp only [enrichGo, Option.some.injEq] at h
    subst h
    intro l hl
    simp at hl
  | cons l0 rs ih =>
    intro i out h hrest
    simp only [enrichGo] at h
    rcases hc : classifyLine epsilon all pfT pfB i with _ | ⟨ss, es⟩ <;> rw [hc] at h
    · simp at h
    · rcases hr : enrichGo epsilon all pfT pfB rs (i + 1) with _ | rs2 <;> rw [hr] at h
      · simp at h
      · simp only [Option.some.injEq] at h
        subst h
        intro l hl r hrr
        rcases List.mem_cons.mp hl with hl1 | hl2
        · subst hl1
          rcases hran : l0.ranges with _ | ⟨r0, rt⟩ <;>
            rw [setStyles, hran] at hrr
          · simp at hrr
          · rcases List.mem_cons.mp hrr with hr1 | hr2
            · subst hr1; simp
            · exact hrest l0 (List.mem_cons_self l0 rs) r (by rw [hran]; exact List.mem_cons_of_mem r0 hr2)
        · exact ih (i + 1) rs2 hr
            (fun l2 hl2b => hrest l2 (List.mem_cons_of_mem l0 hl2b)) l hl2 r hrr

/-- C10: every range produced or mutated by this pipeline has startStyle null if and
only if endStyle null (both are null at construction and always assigned together), so
the stabilization-cache null-guard, which checks only startStyle, is sufficient: under
this invariant on the previous frame, a borrowed boundary entry always has both styles
set, making the unguarded endStyle dereference safe. -/
theorem style_pair_invariant :
    (∀ roundedSelection thw viewport raw pf out,
      getVisibleRangesWithStyle roundedSelection thw viewport raw pf = some out →
      ∀ l ∈ out, ∀ r ∈ l.ranges, (r.startStyle.isSome ↔ r.endStyle.isSome)) ∧
    (∀ viewport lines pf r,
      (∀ l ∈ pf, ∀ rr ∈ l.ranges, (rr.startStyle.isSome ↔ rr.endStyle.isSome)) →
      (computePreviousFrameTop viewport lines pf = some r ∨
        computePreviousFrameBottom viewport lines pf = some r) →
      r.startStyle.isSome ∧ r.endStyle.isSome) := by
  constructor
  · intro roundedSelection thw viewport raw pf out h
    have hbase : ∀ l ∈ (raw.getD []).map toStyled, ∀ r ∈ l.ranges,
        (r.startStyle.isSome ↔ r.endStyle.isSome) := by
      intro l hl r hr
      obtain ⟨lr, _, hleq⟩ := List.mem_map.mp hl
      subst hleq
      obtain ⟨rr, _, hreq⟩ := List.mem_map.mp (by simpa [toStyled] using hr)
      subst hreq
      simp [toStyledRange]
    simp only [getVisibleRangesWithStyle] at h
    split_ifs at h with hcond
    · rcases pf with _ | pfl <;> simp only [enrichVisibleRangesWithStyle] at h
      · exact enrichGo_styles_inv _ _ _ _ _ 0 out h hbase
      · exact enrichGo_styles_inv _ _ _ _ _ 0 out h hbase
    · simp only [Option.some.injEq] at h
      subst h
      exact hbase
  · intro viewport lines pf r hpf hor
    have hpf2 : ∀ l ∈ pf, ∀ rr ∈ l.ranges, rr.startStyle.isSome → rr.endStyle.isSome :=
      fun l hl rr hrr h1 => (hpf l hl rr hrr).mp h1
    rcases hor with h | h
    · exact computePreviousFrameTop_safe viewport lines pf hpf2 r h
    · exact computePreviousFrameBottom_safe viewport lines pf hpf2 r h

/-- Witness for C10: the entry borrowed from the cache frame for boundary line 5 has
both styles set. -/
theorem style_pair_invariant_witness :
    ({ left := 3, width := 40,
       startStyle := some ⟨CornerStyle.FLAT, CornerStyle.EXTERN⟩,
       endStyle := some ⟨CornerStyle.INTERN, CornerStyle.EXTERN⟩ } :
      HorizontalRangeWithStyle).startStyle.isSome ∧
    ({ left := 3, width := 40,
       startStyle := some ⟨CornerStyle.FLAT, CornerStyle.EXTERN⟩,
       endStyle := some ⟨CornerStyle.INTERN, CornerStyle.EXTERN⟩ } :
      HorizontalRangeWithStyle).endStyle.isSome :=
  style_pair_invariant.2 ⟨5, 7⟩ scenarioLines cacheFrame _
    (by intro l hl rr hrr; fin_cases hl <;> fin_cases hrr <;> simp)
    (Or.inl (by rfl))

theorem lineShape_setStyles (l : LineVisibleRangesWithStyle)
    (ss es : IVisibleRangeEndPointStyle) :
    lineShape (setStyles l ss es) = lineShape l := by
  rcases hr : l.ranges with _ | ⟨r0, rt⟩ <;> simp [setStyles, lineShape, hr]

theorem setStyles_setStyles (l : LineVisibleRangesWithStyle)
    (ss es : IVisibleRangeEndPointStyle) :
    setStyles (setStyles l ss es) ss es = setStyles l ss es := by
  rcases hr : l.ranges with _ | ⟨r0, rt⟩ <;> simp [setStyles, hr]

theorem lineGeom_eq_shape (lines : List LineVisibleRangesWithStyle) (i : Nat) :
    lineGeom lines i = ((lines.map lineShape)[i]?).bind (fun s => s.2) := by
  rcases hg : lines[i]? with _ | l
  · simp [lineGeom, hg, List.getElem?_map]
  · rcases hh : l.ranges.head? with _ | r <;>
      simp [lineGeom, hg, List.getElem?_map, lineShape, hh]

theorem enrichGo_shape (epsilon : Rat) (all : List LineVisibleRangesWithStyle)
    (pfT pfB : Option HorizontalRangeWithStyle) :
    ∀ rest i out, enrichGo epsilon all pfT pfB rest i = some out →
      out.map lineShape = rest.map lineShape := by
  intro rest
  induction rest with
  | nil =>
    intro i out h
    simp only [enrichGo, Option.some.injEq] at h
    subst h
    rfl
  | cons l0 rs ih =>
    intro i out h
    simp only [enrichGo] at h
    rcases hc : classifyLine epsilon all pfT pfB i with _ | ⟨ss, es⟩ <;> rw [hc] at h
    · simp at h
    · rcases hr : enrichGo epsilon all pfT pfB rs (i + 1) with _ | rs2 <;> rw [hr] at h
      · simp at h
      · simp only [Option.some.injEq] at h
        subst h
        simp [List.map_cons, lineShape_setStyles, ih (i + 1) rs2 hr]

theorem classifyLine_congr (epsilon : Rat) (pfT pfB : Option HorizontalRangeWithStyle)
    (i : Nat) (lines1 lines2 : List LineVisibleRangesWithStyle)
    (h : lines1.map lineShape = lines2.map lineShape) :
    classifyLine epsilon lines1 pfT pfB i = classifyLine epsilon lines2 pfT pfB i := by
  have hlen : lines1.length = lines2.length := by
    have h2 := congrArg List.length h
    simpa using h2
  have hg : ∀ j, lineGeom lines1 j = lineGeom lines2 j := fun j => by
    rw [lineGeom_eq_shape, lineGeom_eq_shape, h]
  simp only [classifyLine, topPart, bottomPart, hg, hlen]

theorem computePreviousFrameTop_congr (viewport : Viewport)
    (pf : List LineVisibleRangesWithStyle)
    (lines1 lines2 : List LineVisibleRangesWithStyle)
    (h : lines1.map lineShape = lines2.map lineShape) :
    computePreviousFrameTop viewport lines1 pf = computePreviousFrameTop viewport lines2 pf := by
  rcases lines1 with _ | ⟨a, t1⟩ <;> rcases lines2 with _ | ⟨b, t2⟩ <;> simp at h
  · rfl
  · obtain ⟨h1, _⟩ := h
    have hn : a.lineNumber = b.lineNumber := by
      have h2 := congrArg Prod.fst h1
      simpa [lineShape] using h2
    simp [computePreviousFrameTop, hn]

theorem computePreviousFrameBottom_congr (viewport : Viewport)
    (pf : List LineVisibleRangesWithStyle)
    (lines1 lines2 : List LineVisibleRangesWithStyle)
    (h : lines1.map lineShape = lines2.map lineShape) :
    computePreviousFrameBottom viewport lines1 pf =
      computePreviousFrameBottom viewport lines2 pf := by
  have hlast : (lines1.getLast?).map lineShape = (lines2.getLast?).map lineShape := by
    rw [← List.getLast?_map, ← List.getLast?_map, h]
  rcases h1 : lines1.getLast? with _ | a <;> rcases h2 : lines2.getLast? with _ | b <;>
    rw [h1, h2] at hlast <;> simp at hlast
  · simp [computePreviousFrameBottom, h1, h2]
  · have hn : a.lineNumber = b.lineNumber := by
      have h3 := congrArg Prod.fst hlast
      simpa [lineShape] using h3
    simp [computePreviousFrameBottom, h1, h2, hn]

theorem enrichGo_rerun (epsilon : Rat) (pfT pfB : Option HorizontalRangeWithStyle)
    (all all2 : List LineVisibleRangesWithStyle)
    (hall : all2.map lineShape = all.map lineShape) :
    ∀ rest i out, enrichGo epsilon all pfT pfB rest i = some out →
      enrichGo epsilon all2 pfT pfB out i = some out := by
  intro rest
  induction rest with
  | nil =>
    intro i out h
    simp only [enrichGo, Option.some.injEq] at h
    subst h
    rfl
  | cons l0 rs ih =>
    intro i out h
    simp only [enrichGo] at h
    rcases hc : classifyLine epsilon all pfT pfB i with _ | ⟨ss, es⟩ <;> rw [hc] at h
    · simp at h
    · rcases hr : enrichGo epsilon all pfT pfB rs (i + 1) with _ | rs2 <;> rw [hr] at h
      · simp at h
      · simp only [Option.some.injEq] at h
        subst h
        have hc2 : classifyLine epsilon all2 pfT pfB i = some (ss, es) := by
          rw [classifyLine_congr epsilon pfT pfB i all2 all hall, hc]
        have hr2 := ih (i + 1) rs2 hr
        simp [enrichGo, hc2, hr2, setStyles_setStyles]

/-- C9: classification is idempotent: running the classifier again on its own output,
with the same viewport and the same previous frame, reassigns exactly the same
startStyle and endStyle values, despite the in-place mutation. -/
theorem classification_idempotent (thw : Rat) (viewport : Viewport)
    (lines : List LineVisibleRangesWithStyle)
    (pf : Option (List LineVisibleRangesWithStyle))
    (out : List LineVisibleRangesWithStyle)
    (h : enrichVisibleRangesWithStyle thw viewport lines pf = some out) :
    enrichVisibleRangesWithStyle thw viewport out pf = some out := by
  rcases pf with _ | pfl <;> simp only [enrichVisibleRangesWithStyle] at h ⊢
  · exact enrichGo_rerun _ _ _ lines out
      (enrichGo_shape _ _ _ _ lines 0 out h) lines 0 out h
  · have hshape := enrichGo_shape _ _ _ _ lines 0 out h
    rw [computePreviousFrameTop_congr viewport pfl out lines hshape,
      computePreviousFrameBottom_congr viewport pfl out lines hshape]
    exact enrichGo_rerun _ _ _ lines out hshape lines 0 out h

/-- Witness for C9: rerunning the classifier on the classified scenario output
reproduces it. -/
theorem classification_idempotent_witness :
    enrichVisibleRangesWithStyle 8 ⟨5, 7⟩
      [ ⟨5, [⟨10, 50, some ⟨CornerStyle.EXTERN, CornerStyle.INTERN⟩,
              some ⟨CornerStyle.EXTERN, CornerStyle.INTERN⟩⟩]⟩,
        ⟨6, [⟨0, 80, some ⟨CornerStyle.EXTERN, CornerStyle.FLAT⟩,
              some ⟨CornerStyle.EXTERN, CornerStyle.EXTERN⟩⟩]⟩,
        ⟨7, [⟨0, 30, some ⟨CornerStyle.FLAT, CornerStyle.EXTERN⟩,
              some ⟨CornerStyle.INTERN, CornerStyle.EXTERN⟩⟩]⟩ ] none =
    some
      [ ⟨5, [⟨10, 50, some ⟨CornerStyle.EXTERN, CornerStyle.INTERN⟩,
              some ⟨CornerStyle.EXTERN, CornerStyle.INTERN⟩⟩]⟩,
        ⟨6, [⟨0, 80, some ⟨CornerStyle.EXTERN, CornerStyle.FLAT⟩,
              some ⟨CornerStyle.EXTERN, CornerStyle.EXTERN⟩⟩]⟩,
        ⟨7, [⟨0, 30, some ⟨CornerStyle.FLAT, CornerStyle.EXTERN⟩,
              some ⟨CornerStyle.INTERN, CornerStyle.EXTERN⟩⟩]⟩ ] :=
  classification_idempotent 8 ⟨5, 7⟩ scenarioLines none _
    (by norm_num [enrichVisibleRangesWithStyle, enrichGo, classifyLine, topPart,
      bottomPart, classifyTop, classifyBottom, lineGeom, abs, setStyles, scenarioLines])

theorem emitRangePieces_fst_kinds (top bottom : Nat) (r : HorizontalRangeWithStyle) :
    ∀ p ∈ (emitRangePieces top bottom r).1, p.kind ≠ PieceKind.body := by
  intro p hp
  rcases hss : r.startStyle with _ | ss <;> rcases hes : r.endStyle with _ | es <;>
    simp only [emitRangePieces, hss, hes] at hp
  · simp at hp
  · simp at hp
  · simp at hp
  · rcases List.mem_append.mp hp with h | h <;> split_ifs at h <;> simp at h <;>
      rcases h with rfl | rfl <;> simp

theorem emitRangePieces_snd_kinds (top bottom : Nat) (r : HorizontalRangeWithStyle) :
    ∀ p ∈ (emitRangePieces top bottom r).2, p.kind = PieceKind.body := by
  intro p hp
  rcases hss : r.startStyle with _ | ss <;> rcases hes : r.endStyle with _ | es <;>
    simp only [emitRangePieces, hss, hes] at hp <;> simp at hp <;> subst hp <;> rfl

theorem emitRangePieces_fst_nonempty (top bottom : Nat)
    (r : HorizontalRangeWithStyle) (ss es : IVisibleRangeEndPointStyle)
    (hss : r.startStyle = some ss) (hes : r.endStyle = some es)
    (hintern : ss.top = CornerStyle.INTERN ∨ ss.bottom = CornerStyle.INTERN ∨
      es.top = CornerStyle.INTERN ∨ es.bottom = CornerStyle.INTERN) :
    (emitRangePieces top bottom r).1 ≠ [] := by
  simp only [emitRangePieces, hss, hes]
  rcases hintern with h | h | h | h <;> split_ifs with h1 h2 <;> simp_all

theorem renderLinePieces_fst_kinds (hasMultipleSelections : Bool)
    (firstLineNumber lastLineNumber : Nat) (line : LineVisibleRangesWithStyle) :
    ∀ p ∈ (renderLinePieces hasMultipleSelections firstLineNumber lastLineNumber line).1,
      p.kind ≠ PieceKind.body := by
  intro p hp
  simp only [renderLinePieces] at hp
  obtain ⟨r, _, hpr⟩ := List.mem_flatMap.mp hp
  exact emitRangePieces_fst_kinds _ _ r p hpr

theorem renderLinePieces_snd_kinds (hasMultipleSelections : Bool)
    (firstLineNumber lastLineNumber : Nat) (line : LineVisibleRangesWithStyle) :
    ∀ p ∈ (renderLinePieces hasMultipleSelections firstLineNumber lastLineNumber line).2,
      p.kind = PieceKind.body := by
  intro p hp
  simp only [renderLinePieces] at hp
  obtain ⟨r, _, hpr⟩ := List.mem_flatMap.mp hp
  exact emitRangePieces_snd_kinds _ _ r p hpr

theorem append_no_body_before_body (A B : List SelectionPiece)
    (hA : ∀ p ∈ A, p.kind ≠ PieceKind.body) (hB : ∀ p ∈ B, p.kind = PieceKind.body)
    (i j : Nat) (hi : i < (A ++ B).length) (hj : j < (A ++ B).length)
    (hpi : ((A ++ B).get ⟨i, hi⟩).kind ≠ PieceKind.body)
    (hpj : ((A ++ B).get ⟨j, hj⟩).kind = PieceKind.body) : i < j := by
  have hiA : i < A.length := by
    by_contra hge
    push_neg at hge
    have hmem : (A ++ B).get ⟨i, hi⟩ ∈ B := by
      rw [List.get_eq_getElem, List.getElem_append_right hge]
      exact List.getElem_mem _
    exact hpi (hB _ hmem)
  have hjB : A.length ≤ j := by
    by_contra hlt
    push_neg at hlt
    have hmem : (A ++ B).get ⟨j, hj⟩ ∈ A := by
      rw [List.get_eq_getElem, List.getElem_append_left hlt]
      exact List.getElem_mem _
    exact (hA _ hmem) hpj
  omega

/-- C3: for any classified line one of whose ranges has an INTERN corner on the start
or end style, the final concatenated output for that line contains an inner-corner
piece, and every inner-corner piece is placed before every body piece. -/
theorem inner_corner_pieces_precede_body (hasMultipleSelections : Bool)
    (firstLineNumber lastLineNumber : Nat) (line : LineVisibleRangesWithStyle)
    (r : HorizontalRangeWithStyle) (hr : r ∈ line.ranges)
    (ss es : IVisibleRangeEndPointStyle)
    (hss : r.startStyle = some ss) (hes : r.endStyle = some es)
    (hintern : ss.top = CornerStyle.INTERN ∨ ss.bottom = CornerStyle.INTERN ∨
      es.top = CornerStyle.INTERN ∨ es.bottom = CornerStyle.INTERN) :
    (∃ p ∈ renderLineOutput hasMultipleSelections firstLineNumber lastLineNumber line,
      p.kind ≠ PieceKind.body) ∧
    (∀ i j
      (hi : i < (renderLineOutput hasMultipleSelections firstLineNumber lastLineNumber
        line).length)
      (hj : j < (renderLineOutput hasMultipleSelections firstLineNumber lastLineNumber
        line).length),
      ((renderLineOutput hasMultipleSelections firstLineNumber lastLineNumber
        line).get ⟨i, hi⟩).kind ≠ PieceKind.body →
      ((renderLineOutput hasMultipleSelections firstLineNumber lastLineNumber
        line).get ⟨j, hj⟩).kind = PieceKind.body →
      i < j) := by
  constructor
  · obtain ⟨p, hp⟩ := List.exists_mem_of_ne_nil _
      (emitRangePieces_fst_nonempty _ _ r ss es hss hes hintern)
    refine ⟨p, ?_, emitRangePieces_fst_kinds _ _ r p hp⟩
    apply List.mem_append_left
    simp only [renderLinePieces]
    exact List.mem_flatMap.mpr ⟨r, hr, hp⟩
  · intro i j hi hj hpi hpj
    exact append_no_body_before_body _ _
      (renderLinePieces_fst_kinds hasMultipleSelections firstLineNumber lastLineNumber line)
      (renderLinePieces_snd_kinds hasMultipleSelections firstLineNumber lastLineNumber line)
      i j hi hj hpi hpj

/-- Witness for C3: the classified scenario line 7, whose endStyle.top is INTERN. -/
theorem inner_corner_pieces_precede_body_witness :
    (∃ p ∈ renderLineOutput false 5 7
        ⟨7, [⟨0, 30, some ⟨CornerStyle.FLAT, CornerStyle.EXTERN⟩,
          some ⟨CornerStyle.INTERN, CornerStyle.EXTERN⟩⟩]⟩,
      p.kind ≠ PieceKind.body) ∧
    (∀ i j
      (hi : i < (renderLineOutput false 5 7
        ⟨7, [⟨0, 30, some ⟨CornerStyle.FLAT, CornerStyle.EXTERN⟩,
          some ⟨CornerStyle.INTERN, CornerStyle.EXTERN⟩⟩]⟩).length)
      (hj : j < (renderLineOutput false 5 7
        ⟨7, [⟨0, 30, some ⟨CornerStyle.FLAT, CornerStyle.EXTERN⟩,
          some ⟨CornerStyle.INTERN, CornerStyle.EXTERN⟩⟩]⟩).length),
      ((renderLineOutput false 5 7
        ⟨7, [⟨0, 30, some ⟨CornerStyle.FLAT, CornerStyle.EXTERN⟩,
          some ⟨CornerStyle.INTERN, CornerStyle.EXTERN⟩⟩]⟩).get ⟨i, hi⟩).kind ≠
        PieceKind.body →
      ((renderLineOutput false 5 7
        ⟨7, [⟨0, 30, some ⟨CornerStyle.FLAT, CornerStyle.EXTERN⟩,
          some ⟨CornerStyle.INTERN, CornerStyle.EXTERN⟩⟩]⟩).get ⟨j, hj⟩).kind =
        PieceKind.body →
      i < j) :=
  inner_corner_pieces_precede_body false 5 7
    ⟨7, [⟨0, 30, some ⟨CornerStyle.FLAT, CornerStyle.EXTERN⟩,
      some ⟨CornerStyle.INTERN, CornerStyle.EXTERN⟩⟩]⟩
    ⟨0, 30, some ⟨CornerStyle.FLAT, CornerStyle.EXTERN⟩,
      some ⟨CornerStyle.INTERN, CornerStyle.EXTERN⟩⟩
    (by simp)
    ⟨CornerStyle.FLAT, CornerStyle.EXTERN⟩ ⟨CornerStyle.INTERN, CornerStyle.EXTERN⟩
    rfl rfl (by simp)

/-- Counterexample to C1 as stated: with a visible line carrying two ranges,
classification is suppressed, but the output styles are null rather than EXTERN/EXTERN
on all four corners. -/
theorem gap_suppression_not_extern_counterexample :
    ∃ out, getVisibleRangesWithStyle true 8 ⟨5, 5⟩
        (some [⟨5, [⟨0, 10⟩, ⟨20, 10⟩]⟩]) none = some out ∧
      ∃ l ∈ out, ∃ r ∈ l.ranges,
        r.startStyle ≠ some ⟨CornerStyle.EXTERN, CornerStyle.EXTERN⟩ ∧
        r.endStyle ≠ some ⟨CornerStyle.EXTERN, CornerStyle.EXTERN⟩ := by
  refine ⟨[⟨5, [⟨0, 10, none, none⟩, ⟨20, 10, none, none⟩]⟩], ?_, ?_⟩
  · norm_num [getVisibleRangesWithStyle, visibleRangesHaveGaps, toStyled, toStyledRange]
  · exact ⟨⟨5, [⟨0, 10, none, none⟩, ⟨20, 10, none, none⟩]⟩, by simp,
      ⟨0, 10, none, none⟩, by simp, by simp, by simp⟩

/-- C1 amended: for any selection whose visible lines include some line with two or
more ranges, classification is suppressed and every range in the output keeps null
startStyle and endStyle (no corner classification is assigned at all), which the
renderer treats as plain rectangular joins. -/
theorem gap_suppression_leaves_styles_null (roundedSelection : Bool) (thw : Rat)
    (viewport : Viewport) (raw : Option (List LineVisibleRanges))
    (pf : Option (List LineVisibleRangesWithStyle))
    (hgap : ∃ lr ∈ raw.getD [], 1 < lr.ranges.length) :
    ∃ out, getVisibleRangesWithStyle roundedSelection thw viewport raw pf = some out ∧
      ∀ l ∈ out, ∀ r ∈ l.ranges, r.startStyle = none ∧ r.endStyle = none := by
  obtain ⟨lr, hmem, hlen⟩ := hgap
  have hgaps : visibleRangesHaveGaps ((raw.getD []).map toStyled) = true := by
    rw [visibleRangesHaveGaps, List.any_eq_true]
    refine ⟨toStyled lr, List.mem_map_of_mem toStyled hmem, ?_⟩
    simpa [toStyled] using hlen
  refine ⟨(raw.getD []).map toStyled, ?_, ?_⟩
  · simp [getVisibleRangesWithStyle, hgaps]
  · intro l hl r hr
    obtain ⟨lraw, _, hleq⟩ := List.mem_map.mp hl
    subst hleq
    obtain ⟨rraw, _, hreq⟩ := List.mem_map.mp (by simpa [toStyled] using hr)
    subst hreq
    exact ⟨rfl, rfl⟩

/-- Witness for C1 amended: a line with two ranges on line 5 yields an output in which
every range keeps null styles. -/
theorem gap_suppression_leaves_styles_null_witness :
    ∃ out, getVisibleRangesWithStyle true 8 ⟨5, 5⟩
        (some [⟨5, [⟨0, 10⟩, ⟨20, 10⟩]⟩]) none = some out ∧
      ∀ l ∈ out, ∀ r ∈ l.ranges, r.startStyle = none ∧ r.endStyle = none :=
  gap_suppression_leaves_styles_null true 8 ⟨5, 5⟩
    (some [⟨5, [⟨0, 10⟩, ⟨20, 10⟩]⟩]) none
    ⟨⟨5, [⟨0, 10⟩, ⟨20, 10⟩]⟩, by simp, by simp⟩

end SelectionsGpu
